import Mathlib

/-!
Verification of the `sql-strings` Statement Builder (`lib/SQL.js`, the `SQL`
function and its inner `append` closure).

JavaScript strings are modelled as `List Char`; bound values as an inductive
`Value` type (the builder never inspects values, it only stores them).  The
mutable `append` closure is modelled as a state transformer on a `Statement`
record holding the three accumulator fields `text`, `sql`, `values`.  The
exceptional path (`[].reduce(cb)` with no initial value throws a `TypeError`)
is modelled by `Option`: a call that throws returns `none` and produces no new
state, matching the fact that the throw happens before any field is updated.
-/

/-- JavaScript strings, modelled as their character sequences. -/
abbrev Str := List Char

/-- Bound values.  The builder stores values opaquely, so a small universe of
concrete value shapes suffices for the claims. -/
inductive Value where
  | int (i : Int)
  | str (s : Str)
deriving DecidableEq, Repr

/-- The decimal digit character for `d` (source: JavaScript number-to-string
conversion used by `'$' + (append.values.length + i)`). -/
def digitChar (d : Nat) : Char := Char.ofNat (48 + d)

/-- Fuel-indexed decimal rendering helper (most significant digit first).
The fuel argument only serves structural termination; `natDigits` always
supplies enough fuel. -/
def natDigitsAux : Nat → Nat → List Char
  | 0, _ => []
  | fuel + 1, n => if n < 10 then [digitChar n] else natDigitsAux fuel (n / 10) ++ [digitChar (n % 10)]

/-- Decimal rendering of a natural number, as JavaScript renders a
non-negative integer when concatenated into a string. -/
def natDigits (n : Nat) : Str := natDigitsAux (n + 1) n

/-- State of the mutable `append` closure: `append.text` (the `$n`-style
rendering), `append.sql` (the `?`-style rendering) and `append.values`. -/
structure Statement where
  text : Str
  sql : Str
  values : List Value
deriving DecidableEq, Repr

/-- Source: `template.reduce((acc, part, i) => acc + '$' + (append.values.length + i) + part)`
unrolled after its first step: `acc` seeded with `template[0]`, callback first
invoked at array index `i = 1`.  `V` is `append.values.length` at call time
(the pre-call cumulative value count; `values.push` runs only afterwards). -/
def reduceGo (V : Nat) : Str → Nat → List Str → Str
  | acc, _, [] => acc
  | acc, i, p :: rest => reduceGo V (acc ++ '$' :: natDigits (V + i) ++ p) (i + 1) rest

/-- Source: `template.reduce((acc, part, i) => acc + '$' + (append.values.length + i) + part)`.
`Array.prototype.reduce` with no initial value throws a `TypeError` on an
empty array, modelled by `none`. -/
def reduceDollar (V : Nat) : List Str → Option Str
  | [] => none
  | t0 :: rest => some (reduceGo V t0 1 rest)

/-- Source: `template.join('?')`. -/
def joinQ : List Str → Str
  | [] => []
  | [t] => t
  | t :: rest => t ++ '?' :: joinQ rest

/-- One mutating call of the inner `append` closure in its appending form
(`template` already normalised to an array: a raw string argument `s` is
wrapped by the source as `template = [template]`, so it enters here as `[s]`).
Field updates in source order:
`append.text += template.reduce(...)`, `append.sql += template.join('?')`,
`append.values.push(...values)`.  If the reduce throws (empty `template`),
no field has been updated yet and no new state exists (`none`). -/
def append (st : Statement) (template : List Str) (values : List Value) : Option Statement :=
  match reduceDollar st.values.length template with
  | none => none
  | some t =>
      some { text := st.text ++ t, sql := st.sql ++ joinQ template, values := st.values ++ values }

/-- The accumulator state set up at the start of `SQL`:
`append.text = append.sql = ''`, `append.values = []`. -/
def initialStatement : Statement := { text := [], sql := [], values := [] }

/-- Source: `function SQL(template, ...values)` — initialises the empty
accumulator and immediately performs one append with the given arguments. -/
def SQL (template : List Str) (values : List Value) : Option Statement :=
  append initialStatement template values

/-- Result shape of no-argument finalization:
`{ sql: append.sql, text: append.text, query: append.sql, values: append.values }`. -/
structure PlainResult where
  sql : Str
  text : Str
  query : Str
  values : List Value
deriving DecidableEq, Repr

/-- Result shape of sentinel finalization (`template === SEQUELIZE_USE_BIND`):
`{ query: append.text, bind: append.values }`. -/
structure BindResult where
  query : Str
  bind : List Value
deriving DecidableEq, Repr

/-- Finalization when the handle is invoked with no argument
(`template === undefined` branch of `append`).  It only reads the state. -/
def finalizeStandard (st : Statement) : PlainResult :=
  { sql := st.sql, text := st.text, query := st.sql, values := st.values }

/-- Finalization when the handle is invoked with the `SEQUELIZE_USE_BIND`
sentinel.  It only reads the state. -/
def finalizeBind (st : Statement) : BindResult :=
  { query := st.text, bind := st.values }

/-- The values part of the iteration sequence: `yield* this.values`. -/
def iterVals : List Value → List (Str ⊕ Value)
  | [] => []
  | v :: rest => Sum.inr v :: iterVals rest

/-- Source: `append[Symbol.iterator] = function* () { yield this.sql; yield* this.values; }`.
Each run of the generator re-reads the current state, so one run is a pure
function of the state. -/
def iterSQLString (st : Statement) : List (Str ⊕ Value) :=
  Sum.inl st.sql :: iterVals st.values

/-- One append call as data: its fragment array and its value list. -/
structure AppendOp where
  frags : List Str
  vals : List Value
deriving DecidableEq, Repr

/-- Run a sequence of append calls from a starting state, stopping at the
first call that throws. -/
def runOps : Statement → List AppendOp → Option Statement
  | st, [] => some st
  | st, op :: rest =>
    match append st op.frags op.vals with
    | none => none
    | some st' => runOps st' rest

/-- Proof-side characterisation of the `$n` contribution of the non-first
fragments: `$m` before the first, `$(m+1)` before the next, and so on. -/
def textMid (m : Nat) : List Str → Str
  | [] => []
  | p :: rest => '$' :: natDigits m ++ p ++ textMid (m + 1) rest

/-- Proof-side characterisation of the `?` contribution of the non-first
fragments. -/
def sqlMid : List Str → Str
  | [] => []
  | p :: rest => '?' :: (p ++ sqlMid rest)

theorem reduceGo_eq (V : Nat) (l : List Str) :
    ∀ acc i, reduceGo V acc i l = acc ++ textMid (V + i) l := by
  induction l with
  | nil => intro acc i; simp [reduceGo, textMid]
  | cons p rest ih =>
      intro acc i
      rw [reduceGo, ih, textMid]
      simp [List.append_assoc, Nat.add_assoc]

theorem joinQ_eq (t0 : Str) (rest : List Str) : joinQ (t0 :: rest) = t0 ++ sqlMid rest := by
  induction rest generalizing t0 with
  | nil => simp [joinQ, sqlMid]
  | cons r rs ih =>
      rw [show joinQ (t0 :: r :: rs) = t0 ++ '?' :: joinQ (r :: rs) from rfl, ih r, sqlMid]

/-- Master characterisation of a successful append call. -/
theorem append_cons (st : Statement) (t0 : Str) (rest : List Str) (vs : List Value) :
    append st (t0 :: rest) vs =
      some ⟨st.text ++ (t0 ++ textMid (st.values.length + 1) rest),
            st.sql ++ (t0 ++ sqlMid rest),
            st.values ++ vs⟩ := by
  simp [append, reduceDollar, reduceGo_eq, joinQ_eq]

theorem textMid_append (m : Nat) (xs ys : List Str) :
    textMid m (xs ++ ys) = textMid m xs ++ textMid (m + xs.length) ys := by
  induction xs generalizing m with
  | nil => simp [textMid]
  | cons p rest ih =>
      rw [List.cons_append, textMid, textMid, ih]
      simp [List.append_assoc, Nat.add_assoc, Nat.add_comm 1 rest.length]

theorem sqlMid_append (xs ys : List Str) : sqlMid (xs ++ ys) = sqlMid xs ++ sqlMid ys := by
  induction xs with
  | nil => simp [sqlMid]
  | cons p rest ih => rw [List.cons_append, sqlMid, sqlMid, ih]; simp [List.append_assoc]

/-- Numeric value of a digit run (most significant digit first), used by the
spec-side placeholder scanner. -/
def digitsVal (ds : List Char) : Nat :=
  ds.foldl (fun a c => a * 10 + (c.toNat - 48)) 0

theorem natDigitsAux_spec (fuel : Nat) :
    ∀ n, n < fuel →
      natDigitsAux fuel n ≠ [] ∧
      (∀ c ∈ natDigitsAux fuel n, c.isDigit = true) ∧
      digitsVal (natDigitsAux fuel n) = n := by
  induction fuel with
  | zero => intro n h; omega
  | succ fuel ih =>
      intro n h
      rw [natDigitsAux]
      by_cases h10 : n < 10
      · simp only [if_pos h10]
        refine ⟨by simp, ?_, ?_⟩
        · intro c hc
          simp only [List.mem_singleton] at hc
          subst hc
          interval_cases n <;> decide
        · show digitsVal [digitChar n] = n
          interval_cases n <;> decide
      · simp only [if_neg h10]
        have hdiv : n / 10 < fuel := by
          have := Nat.div_lt_self (show 0 < n by omega) (show 1 < 10 by omega)
          omega
        obtain ⟨hne, hdig, hval⟩ := ih (n / 10) hdiv
        refine ⟨by simp, ?_, ?_⟩
        · intro c hc
          rw [List.mem_append] at hc
          rcases hc with hc | hc
          · exact hdig c hc
          · simp only [List.mem_singleton] at hc
            subst hc
            have : n % 10 < 10 := Nat.mod_lt _ (by omega)
            interval_cases hm : n % 10 <;> decide
        · show digitsVal (natDigitsAux fuel (n / 10) ++ [digitChar (n % 10)]) = n
          unfold digitsVal
          rw [List.foldl_append]
          unfold digitsVal at hval
          rw [hval]
          have hm : n % 10 < 10 := Nat.mod_lt _ (by omega)
          have hchar : (digitChar (n % 10)).toNat - 48 = n % 10 := by
            interval_cases hm2 : n % 10 <;> decide
          simp [List.foldl, hchar]
          omega

theorem natDigits_ne_nil (n : Nat) : natDigits n ≠ [] :=
  (natDigitsAux_spec (n + 1) n (by omega)).1

theorem natDigits_all_digit (n : Nat) : ∀ c ∈ natDigits n, c.isDigit = true :=
  (natDigitsAux_spec (n + 1) n (by omega)).2.1

theorem digitsVal_natDigits (n : Nat) : digitsVal (natDigits n) = n :=
  (natDigitsAux_spec (n + 1) n (by omega)).2.2

/-- Spec-side scanner for the numbered placeholders of the `$n` rendering.
It formalises the specification's notion of the numbered placeholders of
`boundText`: reading left to right, every `$` immediately followed by a
non-empty maximal digit run is a placeholder.  Implemented as a right fold
returning (placeholders, maximal digit prefix of the input). -/
def scanAux : List Char → List Nat × List Char
  | [] => ([], [])
  | c :: rest =>
    let p := scanAux rest
    if c.isDigit then (p.1, c :: p.2)
    else if c = '$' then (if p.2 = [] then p.1 else digitsVal p.2 :: p.1, [])
    else (p.1, [])

/-- The numbered placeholders of a rendering, in left-to-right order. -/
def scanPH (l : List Char) : List Nat := (scanAux l).1

/-- The occurrence count of `?` in a rendering. -/
def countQ (l : Str) : Nat := l.count '?'

/-- The ascending run `[s, s+1, ..., s+n-1]`: what it means for the numbered
placeholders to be consecutive, increasing, without gaps or reuse. -/
def natsFrom (s : Nat) : Nat → List Nat
  | 0 => []
  | n + 1 => s :: natsFrom (s + 1) n

theorem natsFrom_append (s m n : Nat) :
    natsFrom s (m + n) = natsFrom s m ++ natsFrom (s + m) n := by
  induction m generalizing s with
  | zero => simp [natsFrom]
  | succ m ih =>
      rw [show m + 1 + n = (m + n) + 1 by omega, natsFrom, natsFrom, ih]
      simp [List.cons_append, Nat.add_assoc, Nat.add_comm 1 m]

theorem scanAux_snd (l : List Char) : (scanAux l).2 = l.takeWhile Char.isDigit := by
  induction l with
  | nil => simp [scanAux]
  | cons c rest ih =>
      rw [scanAux]
      by_cases hd : c.isDigit
      · simp [hd, ih, List.takeWhile_cons]
      · by_cases hc : c = '$' <;> simp [hd, hc, List.takeWhile_cons]

theorem scanAux_append (xs ys : List Char) (h : ys.takeWhile Char.isDigit = []) :
    scanAux (xs ++ ys) = ((scanAux xs).1 ++ (scanAux ys).1, (scanAux xs).2) := by
  induction xs with
  | nil =>
      have h2 : (scanAux ys).2 = [] := by rw [scanAux_snd]; exact h
      simp only [List.nil_append, scanAux, List.nil_append]
      rw [← h2]
  | cons c rest ih =>
      rw [List.cons_append, scanAux, scanAux, ih]
      by_cases hd : c.isDigit
      · simp [hd]
      · by_cases hc : c = '$'
        · simp only [hd, Bool.false_eq_true, if_false, hc, if_pos rfl]
          by_cases hn : (scanAux rest).2 = []
          · simp [hn]
          · simp [hn]
        · simp [hd, hc]

theorem scanPH_no_dollar (l : List Char) (h : ∀ c ∈ l, c ≠ '$') : scanPH l = [] := by
  induction l with
  | nil => simp [scanPH, scanAux]
  | cons c rest ih =>
      have hrest : scanPH rest = [] := ih (fun c hc => h c (List.mem_cons_of_mem _ hc))
      have hc : c ≠ '$' := h c (List.mem_cons_self ..)
      unfold scanPH at hrest ⊢
      rw [scanAux]
      by_cases hd : c.isDigit
      · simp [hd, hrest]
      · simp [hd, hc, hrest]

/-- A character that is placeholder-neutral: neither `?` nor `$`. -/
def cleanChar (c : Char) : Bool := !(c == '?') && !(c == '$')

/-- A literal fragment whose text cannot interfere with either placeholder
dialect: it contains no `?` and no `$`, and does not begin with a decimal
digit (so it cannot extend a preceding `$n` placeholder). -/
def cleanFrag (f : Str) : Bool :=
  f.all cleanChar &&
    match f with
    | [] => true
    | c :: _ => !c.isDigit

/-- A well-formed interleaved append call: at least one fragment, exactly one
fewer value than fragments, and every fragment clean. -/
def cleanOp (op : AppendOp) : Bool :=
  !op.frags.isEmpty && op.vals.length + 1 == op.frags.length && op.frags.all cleanFrag

theorem cleanFrag_no_dollar (f : Str) (h : cleanFrag f = true) : ∀ c ∈ f, c ≠ '$' := by
  intro c hc
  unfold cleanFrag at h
  rw [Bool.and_eq_true, List.all_eq_true] at h
  have := h.1 c hc
  unfold cleanChar at this
  rw [Bool.and_eq_true] at this
  simpa using this.2

theorem cleanFrag_no_qmark (f : Str) (h : cleanFrag f = true) : '?' ∉ f := by
  intro hc
  unfold cleanFrag at h
  rw [Bool.and_eq_true, List.all_eq_true] at h
  have := h.1 '?' hc
  unfold cleanChar at this
  rw [Bool.and_eq_true] at this
  simp at this

theorem cleanFrag_takeWhile (f : Str) (h : cleanFrag f = true) :
    f.takeWhile Char.isDigit = [] := by
  unfold cleanFrag at h
  rw [Bool.and_eq_true] at h
  match f, h with
  | [], _ => rfl
  | c :: rest, ⟨_, h2⟩ =>
      simp only [Bool.not_eq_true'] at h2
      simp [List.takeWhile_cons, h2]

theorem takeWhile_textMid (m : Nat) (fs : List Str) :
    (textMid m fs).takeWhile Char.isDigit = [] := by
  cases fs with
  | nil => rfl
  | cons p rest => rw [textMid]; simp [List.takeWhile_cons]

theorem takeWhile_append_nil (xs ys : List Char)
    (hx : xs.takeWhile Char.isDigit = []) (hy : ys.takeWhile Char.isDigit = []) :
    (xs ++ ys).takeWhile Char.isDigit = [] := by
  cases xs with
  | nil => simpa using hy
  | cons c rest =>
      rw [List.takeWhile_cons] at hx
      rw [List.cons_append, List.takeWhile_cons]
      by_cases hd : Char.isDigit c
      · simp [hd] at hx
      · simp [hd]

theorem takeWhile_all_append (xs ys : List Char) (hx : ∀ c ∈ xs, c.isDigit = true)
    (hy : ys.takeWhile Char.isDigit = []) :
    (xs ++ ys).takeWhile Char.isDigit = xs := by
  induction xs with
  | nil => simpa using hy
  | cons c rest ih =>
      rw [List.cons_append, List.takeWhile_cons]
      have hc := hx c (List.mem_cons_self ..)
      simp [hc, ih (fun d hd => hx d (List.mem_cons_of_mem _ hd))]

theorem takeWhile_natDigits_append (n : Nat) (ys : List Char)
    (hy : ys.takeWhile Char.isDigit = []) :
    (natDigits n ++ ys).takeWhile Char.isDigit = natDigits n :=
  takeWhile_all_append _ _ (natDigits_all_digit n) hy

theorem isDigit_ne_dollar (c : Char) (h : c.isDigit = true) : c ≠ '$' := by
  intro e; subst e; simp [Char.isDigit] at h

theorem scanPH_natDigits (m : Nat) : scanPH (natDigits m) = [] :=
  scanPH_no_dollar _ (fun c hc => isDigit_ne_dollar c (natDigits_all_digit m c hc))

theorem scanAux_textMid (fs : List Str) :
    ∀ m, (∀ f ∈ fs, cleanFrag f = true) →
      scanAux (textMid m fs) = (natsFrom m fs.length, []) := by
  induction fs with
  | nil => intro m _; rfl
  | cons f rest ih =>
      intro m hclean
      have hf := hclean f (List.mem_cons_self ..)
      have hrest : ∀ g ∈ rest, cleanFrag g = true :=
        fun g hg => hclean g (List.mem_cons_of_mem _ hg)
      have htm : (textMid (m + 1) rest).takeWhile Char.isDigit = [] := takeWhile_textMid _ _
      have hfm : (f ++ textMid (m + 1) rest).takeWhile Char.isDigit = [] :=
        takeWhile_append_nil _ _ (cleanFrag_takeWhile f hf) htm
      have hinner : scanAux (f ++ textMid (m + 1) rest) =
          ((scanAux f).1 ++ (scanAux (textMid (m + 1) rest)).1, (scanAux f).2) :=
        scanAux_append _ _ htm
      have hfPH : (scanAux f).1 = [] :=
        scanPH_no_dollar f (cleanFrag_no_dollar f hf)
      have houter : scanAux (natDigits m ++ (f ++ textMid (m + 1) rest)) =
          ((scanAux (natDigits m)).1 ++ (scanAux (f ++ textMid (m + 1) rest)).1,
            (scanAux (natDigits m)).2) :=
        scanAux_append _ _ hfm
      have hdPH : (scanAux (natDigits m)).1 = [] := scanPH_natDigits m
      have hdsnd : (scanAux (natDigits m)).2 = natDigits m := by
        rw [scanAux_snd]
        have := takeWhile_all_append (natDigits m) [] (natDigits_all_digit m) rfl
        simpa using this
      rw [textMid]
      rw [show ('$' :: natDigits m ++ f ++ textMid (m + 1) rest) =
            '$' :: (natDigits m ++ (f ++ textMid (m + 1) rest)) by
        simp [List.append_assoc]]
      rw [scanAux]
      simp only [houter, hinner, hfPH, hdPH, ih (m + 1) hrest]
      have hisdig : Char.isDigit '$' = false := by decide
      simp only [hisdig, Bool.false_eq_true, if_false, if_pos rfl, hdsnd]
      rw [if_neg (natDigits_ne_nil m), digitsVal_natDigits]
      rfl

theorem countQ_append (xs ys : Str) : countQ (xs ++ ys) = countQ xs + countQ ys := by
  simp [countQ, List.count_append]

theorem countQ_no_qmark (xs : Str) (h : '?' ∉ xs) : countQ xs = 0 :=
  List.count_eq_zero.mpr h

theorem countQ_sqlMid (fs : List Str) (h : ∀ f ∈ fs, cleanFrag f = true) :
    countQ (sqlMid fs) = fs.length := by
  induction fs with
  | nil => rfl
  | cons p rest ih =>
      rw [sqlMid]
      have hp : countQ p = 0 :=
        countQ_no_qmark p (cleanFrag_no_qmark p (h p (List.mem_cons_self ..)))
      have hr := ih (fun g hg => h g (List.mem_cons_of_mem _ hg))
      simp [countQ, List.count_cons, List.count_append] at hp hr ⊢
      omega

/-- The data-model invariant of a Statement: the `?` occurrences of `sql`
count the values, and the numbered placeholders of `text` are exactly
`$1 .. $k` in increasing order. -/
def stmtInv (st : Statement) : Prop :=
  countQ st.sql = st.values.length ∧ scanPH st.text = natsFrom 1 st.values.length

theorem stmtInv_append (st : Statement) (op : AppendOp)
    (hop : cleanOp op = true) (hinv : stmtInv st) :
    ∃ st', append st op.frags op.vals = some st' ∧ stmtInv st' := by
  unfold cleanOp at hop
  rw [Bool.and_eq_true, Bool.and_eq_true] at hop
  obtain ⟨⟨hne, hlen⟩, hcl⟩ := hop
  rw [List.all_eq_true] at hcl
  rw [Nat.beq_eq_true_eq] at hlen
  cases hf : op.frags with
  | nil => rw [hf] at hne; simp [List.isEmpty] at hne
  | cons t0 rest =>
      rw [hf] at hlen hcl
      rw [List.length_cons] at hlen
      have ht0 : cleanFrag t0 = true := hcl t0 (List.mem_cons_self ..)
      have hrest : ∀ g ∈ rest, cleanFrag g = true :=
        fun g hg => hcl g (List.mem_cons_of_mem _ hg)
      refine ⟨_, append_cons st t0 rest op.vals, ?_, ?_⟩
      · show countQ (st.sql ++ (t0 ++ sqlMid rest)) = (st.values ++ op.vals).length
        rw [countQ_append, countQ_append, hinv.1,
          countQ_no_qmark t0 (cleanFrag_no_qmark t0 ht0), countQ_sqlMid rest hrest]
        simp only [List.length_append]
        omega
      · show scanPH (st.text ++ (t0 ++ textMid (st.values.length + 1) rest)) =
          natsFrom 1 (st.values ++ op.vals).length
        have htm : (textMid (st.values.length + 1) rest).takeWhile Char.isDigit = [] :=
          takeWhile_textMid _ _
        have hy : (t0 ++ textMid (st.values.length + 1) rest).takeWhile Char.isDigit = [] :=
          takeWhile_append_nil _ _ (cleanFrag_takeWhile t0 ht0) htm
        unfold scanPH
        rw [congrArg Prod.fst (scanAux_append st.text _ hy),
          congrArg Prod.fst (scanAux_append t0 _ htm),
          congrArg Prod.fst (scanAux_textMid rest (st.values.length + 1) hrest)]
        rw [show (scanAux t0).1 = [] from scanPH_no_dollar t0 (cleanFrag_no_dollar t0 ht0)]
        rw [show (scanAux st.text).1 = natsFrom 1 st.values.length from hinv.2]
        simp only [List.length_append, List.nil_append]
        rw [show st.values.length + op.vals.length = st.values.length + rest.length by omega]
        rw [natsFrom_append 1 st.values.length rest.length, Nat.add_comm 1 st.values.length]

theorem stmtInv_runOps (ops : List AppendOp) :
    ∀ st, (∀ op ∈ ops, cleanOp op = true) → stmtInv st →
      ∃ st', runOps st ops = some st' ∧ stmtInv st' := by
  induction ops with
  | nil => intro st _ hinv; exact ⟨st, rfl, hinv⟩
  | cons op rest ih =>
      intro st hops hinv
      obtain ⟨st1, hst1, hinv1⟩ :=
        stmtInv_append st op (hops op (List.mem_cons_self ..)) hinv
      obtain ⟨st', hrun, hinv'⟩ :=
        ih st1 (fun o ho => hops o (List.mem_cons_of_mem _ ho)) hinv1
      exact ⟨st', by rw [runOps, hst1]; exact hrun, hinv'⟩

theorem stmtInv_initial : stmtInv initialStatement := by
  constructor <;> rfl

/-- Spec-side rendering of the `?` dialect, following the specification's
words: each fragment is concatenated followed by a `?`, with the trailing `?`
omitted after the final fragment. -/
def specSqlRender : List Str → Str
  | [] => []
  | [t] => t
  | t :: rest => t ++ '?' :: specSqlRender rest

/-- Spec-side rendering of the `$n` dialect, following the specification's
words: the fragment at position `i` is concatenated followed by
`$`(base + 1 + i), where `base` is the running value count before the call,
with the suffix omitted after the final fragment. -/
def specTextRender (base : Nat) : Nat → List Str → Str
  | _, [] => []
  | _, [t] => t
  | i, t :: rest => t ++ '$' :: natDigits (base + 1 + i) ++ specTextRender base (i + 1) rest

theorem specSqlRender_eq (ts : List Str) : specSqlRender ts = joinQ ts := by
  induction ts with
  | nil => rfl
  | cons t rest ih =>
      cases rest with
      | nil => rfl
      | cons r rs =>
          rw [show specSqlRender (t :: r :: rs) = t ++ '?' :: specSqlRender (r :: rs) from rfl,
            show joinQ (t :: r :: rs) = t ++ '?' :: joinQ (r :: rs) from rfl, ih]

theorem specTextRender_eq (base : Nat) (rest : List Str) :
    ∀ t0 i, specTextRender base i (t0 :: rest) = t0 ++ textMid (base + i + 1) rest := by
  induction rest with
  | nil => intro t0 i; simp [specTextRender, textMid]
  | cons r rs ih =>
      intro t0 i
      rw [show specTextRender base i (t0 :: r :: rs) =
            t0 ++ '$' :: natDigits (base + 1 + i) ++ specTextRender base (i + 1) (r :: rs) from
          rfl, ih r (i + 1), textMid]
      rw [show base + 1 + i = base + i + 1 by omega,
        show base + (i + 1) + 1 = base + i + 1 + 1 by omega]
      simp [List.append_assoc]

theorem iterVals_eq_map (vs : List Value) : iterVals vs = vs.map Sum.inr := by
  induction vs with
  | nil => rfl
  | cons v rest ih => rw [iterVals, ih, List.map_cons]

/-- Claim C1: for every Statement, appending `n` fragments interleaved with
`n - 1` values extends the `?`-rendering by the fragments each followed by a
`?` except the last, extends the `$n`-rendering by the fragments each
followed by `$`(pre-call value count + 1 + position) except the last, and
appends the given values in order — so placeholder numbering continues
across calls with the pre-call value count as the base offset. -/
theorem claim1_append_interleaved (st : Statement) (t0 : Str) (rest : List Str)
    (vs : List Value) (h : vs.length = rest.length) :
    append st (t0 :: rest) vs =
      some ⟨st.text ++ specTextRender st.values.length 0 (t0 :: rest),
            st.sql ++ specSqlRender (t0 :: rest),
            st.values ++ vs⟩ := by
  rw [append_cons, specTextRender_eq, specSqlRender_eq, joinQ_eq]

/-- Witness for C1: the claim applied to a Statement that already holds one
value, so the new placeholder is numbered `$2`. -/
theorem claim1_append_interleaved_witness :
    ([Value.int 6] : List Value).length = (["".data] : List Str).length ∧
    append ⟨"a$1".data, "a?".data, [Value.int 5]⟩ (" AND x = ".data :: ["".data]) [Value.int 6] =
      some ⟨"a$1".data ++ specTextRender 1 0 (" AND x = ".data :: ["".data]),
            "a?".data ++ specSqlRender (" AND x = ".data :: ["".data]),
            [Value.int 5] ++ [Value.int 6]⟩ :=
  ⟨rfl, claim1_append_interleaved _ _ _ _ rfl⟩

/-- Claim C3: appending a single raw string with no values concatenates that
exact string into both renderings (nothing else is added, in particular no
placeholder) and leaves the values sequence unchanged. -/
theorem claim3_raw_append (st : Statement) (s : Str) :
    append st [s] [] = some ⟨st.text ++ s, st.sql ++ s, st.values⟩ := by
  rw [append_cons]
  simp [textMid, sqlMid]

/-- Claim C4: no-argument finalization returns an object whose `sql` is the
`?`-rendering, whose `text` is the Statement's `$n`-rendering, whose `query`
equals `sql`, and whose `values` is the bound-values sequence; it only reads
the Statement (the finalizer is a pure function of the state). -/
theorem claim4_finalize_standard (st : Statement) :
    (finalizeStandard st).sql = st.sql ∧
    (finalizeStandard st).text = st.text ∧
    (finalizeStandard st).query = (finalizeStandard st).sql ∧
    (finalizeStandard st).values = st.values :=
  ⟨rfl, rfl, rfl, rfl⟩

/-- Claim C5: sentinel finalization returns `query` equal to the
`$n`-rendering and `bind` equal to the bound values, and `bind` coincides
with the `values` field of no-argument finalization of the same Statement. -/
theorem claim5_finalize_bind (st : Statement) :
    (finalizeBind st).query = st.text ∧
    (finalizeBind st).bind = st.values ∧
    (finalizeBind st).bind = (finalizeStandard st).values :=
  ⟨rfl, rfl, rfl⟩

/-- Claim C7: every successful append call strictly extends the state: the
previous `text` and `sql` renderings are prefixes of the new ones, and the
previous values are a prefix of the new values with the call's values
appended in order; nothing is removed or reordered. -/
theorem claim7_append_only_growth (st : Statement) (t0 : Str) (rest : List Str)
    (vs : List Value) :
    ∃ a b, append st (t0 :: rest) vs =
      some ⟨st.text ++ a, st.sql ++ b, st.values ++ vs⟩ :=
  ⟨_, _, append_cons st t0 rest vs⟩

/-- Claim C8: iterating the handle yields the `?`-rendering first and then
each bound value in append order; a run of the generator is a pure function
of the current state, so iterating twice without an intervening append yields
the same sequence.  The second conjunct is the specification's scenario. -/
theorem claim8_iteration_sequence :
    (∀ st : Statement, iterSQLString st = Sum.inl st.sql :: st.values.map Sum.inr) ∧
    Option.map iterSQLString
        (SQL ["SELECT * FROM users WHERE id = ".data, "".data] [Value.int 1]) =
      some [Sum.inl "SELECT * FROM users WHERE id = ?".data, Sum.inr (Value.int 1)] :=
  ⟨fun st => by rw [iterSQLString, iterVals_eq_map], by decide⟩

/-- Claim C9: appending a raw string together with extra positional values
does not throw: the string is concatenated verbatim into both renderings
with no placeholder generated, and the extra values are still pushed onto
the values sequence. -/
theorem claim9_raw_append_extra_values (st : Statement) (s : Str) (vs : List Value) :
    append st [s] vs = some ⟨st.text ++ s, st.sql ++ s, st.values ++ vs⟩ := by
  rw [append_cons]
  simp [textMid, sqlMid]

/-- Claim C10: invoking append with an empty fragment sequence throws (the
fold building the `$n` rendering has no initial element), rather than acting
as a no-op; with at least one fragment the call always succeeds. -/
theorem claim10_empty_template_throws (st : Statement) (vs : List Value) :
    append st [] vs = none ∧
    ∀ t0 rest, (append st (t0 :: rest) vs).isSome = true := by
  refine ⟨rfl, ?_⟩
  intro t0 rest
  rw [append_cons]
  rfl

/-- Claim C2 refuted as stated: a literal fragment may itself contain a `?`
character, in which case the occurrence count of `?` in the `sql` rendering
exceeds `values.length`.  Concretely, constructing with fragments
`["x?", ""]` and one value yields `sql = "x??"` with two `?` occurrences but
a single bound value. -/
theorem claim2_count_counterexample :
    runOps initialStatement [⟨["x?".data, "".data], [Value.int 1]⟩] =
      some ⟨"x?$1".data, "x??".data, [Value.int 1]⟩ ∧
    countQ "x??".data ≠ ([Value.int 1] : List Value).length :=
  ⟨by decide, by decide⟩

/-- Claim C2 (amended): for every sequence of append calls from construction
in which each call carries `n ≥ 1` fragments interleaved with `n - 1` values
and every fragment is clean — contains no `?` and no `$` and does not begin
with a decimal digit — the run succeeds and in the result the number of `?`
occurrences in `sql` equals `values.length`, and the numbered placeholders
of `text` are exactly `$1 .. $k` in increasing order with no gaps and no
reuse, where `k = values.length`. -/
theorem claim2_placeholder_invariant (ops : List AppendOp) (st : Statement)
    (hclean : ∀ op ∈ ops, cleanOp op = true)
    (hrun : runOps initialStatement ops = some st) :
    countQ st.sql = st.values.length ∧ scanPH st.text = natsFrom 1 st.values.length := by
  obtain ⟨st', hrun', hinv⟩ := stmtInv_runOps ops initialStatement hclean stmtInv_initial
  rw [hrun] at hrun'
  obtain rfl := Option.some.inj hrun'
  exact hinv

/-- Witness for the amended C2: two successive clean appends with one value
each produce one `?` per value and placeholders `$1`, `$2`. -/
theorem claim2_placeholder_invariant_witness :
    (∀ op ∈ ([⟨["a = ".data, "".data], [Value.int 1]⟩,
              ⟨[" AND b = ".data, "".data], [Value.str "z".data]⟩] : List AppendOp),
        cleanOp op = true) ∧
    runOps initialStatement
        [⟨["a = ".data, "".data], [Value.int 1]⟩,
         ⟨[" AND b = ".data, "".data], [Value.str "z".data]⟩] =
      some ⟨"a = $1 AND b = $2".data, "a = ? AND b = ?".data,
            [Value.int 1, Value.str "z".data]⟩ ∧
    countQ ("a = ? AND b = ?".data) =
        ([Value.int 1, Value.str "z".data] : List Value).length ∧
    scanPH ("a = $1 AND b = $2".data) =
        natsFrom 1 ([Value.int 1, Value.str "z".data] : List Value).length :=
  ⟨by decide, by decide,
    claim2_placeholder_invariant
      [⟨["a = ".data, "".data], [Value.int 1]⟩,
       ⟨[" AND b = ".data, "".data], [Value.str "z".data]⟩]
      ⟨"a = $1 AND b = $2".data, "a = ? AND b = ?".data,
        [Value.int 1, Value.str "z".data]⟩
      (by decide) (by decide)⟩

/-- Claim C6: appending is associative in effect.  One combined append call
whose fragments are the two calls' fragments with the boundary pair
concatenated (`L ++ u0`) and whose values are the two calls' values in
order produces exactly the same `text`, `sql` and `values` as the two
successive calls, provided the first call is properly interleaved (one more
fragment than values), since the `$n` base offset of the second call is the
cumulative value count left by the first. -/
theorem claim6_append_associative (st : Statement) (ts : List Str) (L u0 : Str)
    (r2 : List Str) (vs1 vs2 : List Value) (h : vs1.length = ts.length) :
    (append st (ts ++ [L]) vs1).bind (fun st1 => append st1 (u0 :: r2) vs2) =
      append st (ts ++ (L ++ u0) :: r2) (vs1 ++ vs2) := by
  cases ts with
  | nil =>
      have hv : vs1 = [] := List.length_eq_zero.mp (by simpa using h)
      subst hv
      rw [List.nil_append, List.nil_append, append_cons st L [] [], Option.bind]
      rw [append_cons, append_cons]
      simp [textMid, sqlMid, List.append_assoc]
  | cons a ts' =>
      have hlen : vs1.length = ts'.length + 1 := by simpa using h
      rw [List.cons_append, List.cons_append, append_cons st a (ts' ++ [L]) vs1, Option.bind]
      rw [append_cons, append_cons]
      simp only [Option.some.injEq, Statement.mk.injEq]
      refine ⟨?_, ?_, ?_⟩
      · simp only [textMid_append, List.length_append, List.length_cons, hlen]
        rw [show st.values.length + (ts'.length + 1) + 1 =
              st.values.length + 1 + ts'.length + 1 by omega]
        simp [textMid, List.append_assoc]
      · simp [sqlMid_append, sqlMid, List.append_assoc]
      · simp [List.append_assoc]

/-- Witness for C6: splitting `SELECT`-style text across two appends agrees
with the single combined append. -/
theorem claim6_append_associative_witness :
    ([Value.int 1] : List Value).length = (["id = ".data] : List Str).length ∧
    (append initialStatement (["id = ".data] ++ ["".data]) [Value.int 1]).bind
        (fun st1 => append st1 (" AND u = ".data :: ["".data]) [Value.str "bob".data]) =
      append initialStatement
        (["id = ".data] ++ ("".data ++ " AND u = ".data) :: ["".data])
        ([Value.int 1] ++ [Value.str "bob".data]) :=
  ⟨rfl, claim6_append_associative initialStatement ["id = ".data] "".data " AND u = ".data
    ["".data] [Value.int 1] [Value.str "bob".data] rfl⟩
